import Mathlib

/-!
Verification development for the seeMUD auto-mapper and line parser.

Go strings are modelled as lists of characters (`Str`); byte-level
operations (hashing, truncation, byte lengths) go through an explicit
UTF-8 encoder, matching Go's byte-based string representation.
-/

set_option maxHeartbeats 1000000
set_option maxRecDepth 10000

namespace SeeMUD

abbrev Str := List Char

/-- Coerce a Lean string literal to the `Str` model of Go strings. -/
def str (s : String) : Str := s.data

/-! ## UTF-8 encoding (Go strings are byte sequences) -/

/-- UTF-8 encoding of one code point, as byte values. -/
def utf8Char (c : Char) : List Nat :=
  let n := c.toNat
  if n < 128 then [n]
  else if n < 2048 then [192 + n / 64, 128 + n % 64]
  else if n < 65536 then [224 + n / 4096, 128 + (n / 64) % 64, 128 + n % 64]
  else [240 + n / 262144, 128 + (n / 4096) % 64, 128 + (n / 64) % 64, 128 + n % 64]

/-- UTF-8 byte sequence of a Go string. -/
def utf8Bytes (s : Str) : List Nat :=
  s.foldr (fun c acc => utf8Char c ++ acc) []

/-! ## SHA-256 (crypto/sha256), executable over byte lists.
Words are `Nat` kept below `2^32`; every arithmetic step reduces mod `2^32`. -/

def add32 (a b : Nat) : Nat := (a + b) % 4294967296

def rotr32 (n x : Nat) : Nat :=
  ((x >>> n) ||| (x <<< (32 - n))) % 4294967296

def sha2Ch (x y z : Nat) : Nat := (x &&& y) ^^^ ((x ^^^ 4294967295) &&& z)

def sha2Maj (x y z : Nat) : Nat := (x &&& y) ^^^ (x &&& z) ^^^ (y &&& z)

def bigSigma0 (x : Nat) : Nat := rotr32 2 x ^^^ rotr32 13 x ^^^ rotr32 22 x

def bigSigma1 (x : Nat) : Nat := rotr32 6 x ^^^ rotr32 11 x ^^^ rotr32 25 x

def smallSigma0 (x : Nat) : Nat := rotr32 7 x ^^^ rotr32 18 x ^^^ (x >>> 3)

def smallSigma1 (x : Nat) : Nat := rotr32 17 x ^^^ rotr32 19 x ^^^ (x >>> 10)

/-- The 64 SHA-256 round constants. -/
def sha256K : List Nat :=
  [1116352408, 1899447441, 3049323471, 3921009573, 961987163,
   1508970993, 2453635748, 2870763221, 3624381080, 310598401,
   607225278, 1426881987, 1925078388, 2162078206, 2614888103,
   3248222580, 3835390401, 4022224774, 264347078, 604807628,
   770255983, 1249150122, 1555081692, 1996064986, 2554220882,
   2821834349, 2952996808, 3210313671, 3336571891, 3584528711,
   113926993, 338241895, 666307205, 773529912, 1294757372,
   1396182291, 1695183700, 1986661051, 2177026350, 2456956037,
   2730485921, 2820302411, 3259730800, 3345764771, 3516065817,
   3600352804, 4094571909, 275423344, 430227734, 506948616,
   659060556, 883997877, 958139571, 1322822218, 1537002063,
   1747873779, 1955562222, 2024104815, 2227730452, 2361852424,
   2428436474, 2756734187, 3204031479, 3329325298]

/-- Intermediate SHA-256 hash state: eight 32-bit words. -/
structure H8 where
  a : Nat
  b : Nat
  c : Nat
  d : Nat
  e : Nat
  f : Nat
  g : Nat
  hh : Nat

def sha256H0 : H8 :=
  ⟨1779033703, 3144134277, 1013904242, 2773480762, 1359893119, 2600822924, 528734635, 1541459225⟩

/-- `k` bytes of `n`, big-endian. -/
def beBytes (k n : Nat) : List Nat :=
  (List.range k).map (fun i => (n >>> (8 * (k - 1 - i))) &&& 255)

/-- Merkle–Damgård padding: `0x80`, zeros, then the 64-bit bit length. -/
def sha256Pad (msg : List Nat) : List Nat :=
  let len := msg.length
  let padZeros := (64 + 56 - ((len + 1) % 64)) % 64
  msg ++ [128] ++ List.replicate padZeros 0 ++ beBytes 8 (8 * len)

/-- Split into 64-byte blocks (structural recursion on a length fuel,
which always suffices because every step consumes at least one byte). -/
def chunks64Aux : Nat → List Nat → List (List Nat)
  | 0, _ => []
  | _ + 1, [] => []
  | fuel + 1, c :: rest => ((c :: rest).take 64) :: chunks64Aux fuel ((c :: rest).drop 64)

def chunks64 (l : List Nat) : List (List Nat) := chunks64Aux l.length l

/-- Big-endian 32-bit word from four bytes. -/
def beWord (b : List Nat) : Nat := b.foldl (fun a c => a * 256 + c) 0

/-- The sixteen initial message-schedule words of a block. -/
def words16 (block : List Nat) : List Nat :=
  (List.range 16).map (fun i => beWord ((block.drop (4 * i)).take 4))

/-- One message-schedule extension step. -/
def schedStep (w : List Nat) : List Nat :=
  let n := w.length
  w ++ [(smallSigma1 (w.getD (n - 2) 0) + w.getD (n - 7) 0 +
         smallSigma0 (w.getD (n - 15) 0) + w.getD (n - 16) 0) % 4294967296]

/-- Full 64-entry message schedule. -/
def schedule (block : List Nat) : List Nat :=
  (List.range 48).foldl (fun w _ => schedStep w) (words16 block)

/-- One SHA-256 compression round. -/
def sha256Round (s : H8) (kw : Nat × Nat) : H8 :=
  let t1 := (s.hh + bigSigma1 s.e + sha2Ch s.e s.f s.g + kw.1 + kw.2) % 4294967296
  let t2 := (bigSigma0 s.a + sha2Maj s.a s.b s.c) % 4294967296
  ⟨(t1 + t2) % 4294967296, s.a, s.b, s.c, (s.d + t1) % 4294967296, s.e, s.f, s.g⟩

/-- Compress one 64-byte block into the running state. -/
def sha256Block (s : H8) (block : List Nat) : H8 :=
  let t := (sha256K.zip (schedule block)).foldl sha256Round s
  ⟨add32 s.a t.a, add32 s.b t.b, add32 s.c t.c, add32 s.d t.d,
   add32 s.e t.e, add32 s.f t.f, add32 s.g t.g, add32 s.hh t.hh⟩

/-- SHA-256 digest (32 bytes) of a byte sequence. -/
def sha256 (msg : List Nat) : List Nat :=
  let s := (chunks64 (sha256Pad msg)).foldl sha256Block sha256H0
  beBytes 4 s.a ++ beBytes 4 s.b ++ beBytes 4 s.c ++ beBytes 4 s.d ++
  beBytes 4 s.e ++ beBytes 4 s.f ++ beBytes 4 s.g ++ beBytes 4 s.hh

/-! ## Hex formatting (`fmt.Sprintf("%x", ...)`) -/

def hexDigit (n : Nat) : Char := if n < 10 then Char.ofNat (48 + n) else Char.ofNat (87 + n)

def hexByte (b : Nat) : Str := [hexDigit (b / 16), hexDigit (b % 16)]

def bytesHex (bs : List Nat) : Str := bs.foldr (fun b acc => hexByte b ++ acc) []

/-- `GenerateRoomID` (graph.go): hash of name and the description truncated
to its first 100 bytes, formatted as the hex of the first 16 digest bytes. -/
def GenerateRoomID (name description : Str) : Str :=
  bytesHex ((sha256 (utf8Bytes name ++ [124] ++ (utf8Bytes description).take 100)).take 16)

/-! ## Go string helpers used by the mapper and parser -/

/-- `strings.ToLower`, modelled on the ASCII range (all direction and exit
tokens handled by the mapper are ASCII). -/
def toLowerChar (c : Char) : Char :=
  if 'A' ≤ c ∧ c ≤ 'Z' then Char.ofNat (c.toNat + 32) else c

def toLowerStr (s : Str) : Str := s.map toLowerChar

/-- `unicode.IsSpace`, as used by `strings.TrimSpace`. -/
def goIsSpace (c : Char) : Bool :=
  (9 ≤ c.toNat && c.toNat ≤ 13) || c.toNat == 32 || c.toNat == 133 || c.toNat == 160 ||
  c.toNat == 5760 || (8192 ≤ c.toNat && c.toNat ≤ 8202) || c.toNat == 8232 ||
  c.toNat == 8233 || c.toNat == 8239 || c.toNat == 8287 || c.toNat == 12288

/-- `strings.TrimSpace`. -/
def goTrimSpace (s : Str) : Str :=
  ((s.dropWhile goIsSpace).reverse.dropWhile goIsSpace).reverse

/-! ## Data model (graph.go) -/

/-- `Room` (graph.go). `Visited` (a `time.Time`) is modelled as a tick count. -/
structure Room where
  id : Str
  name : Str
  description : Str
  x : Int
  y : Int
  z : Int
  exits : List (Str × Str)
  imagePath : Str
  visited : Nat
  visitCount : Nat
  uncertain : Bool
  notes : Str
deriving DecidableEq

/-- `Exit` (graph.go): one entry of the flat exit list. -/
structure Exit where
  fromId : Str
  direction : Str
  toId : Str
deriving DecidableEq

/-- `RoomGraph` (graph.go). The Go `map[string]*Room` is modelled as an
association list in insertion order; the mapper never depends on Go's
random map iteration order except through `FindRoomAt`, of which only
emptiness is consumed. -/
structure RoomGraph where
  rooms : List (Str × Room)
  exits : List Exit

/-- First-match association-list lookup (Go map read). -/
def lookupRoom : List (Str × Room) → Str → Option Room
  | [], _ => none
  | p :: rest, id => if p.1 = id then some p.2 else lookupRoom rest id

/-- Mutation of the room stored under a key (Go writes through `*Room`). -/
def updateRoom (rooms : List (Str × Room)) (id : Str) (f : Room → Room) :
    List (Str × Room) :=
  rooms.map (fun p => if p.1 = id then (p.1, f p.2) else p)

def lookupExit : List (Str × Str) → Str → Option Str
  | [], _ => none
  | p :: rest, d => if p.1 = d then some p.2 else lookupExit rest d

/-- Go map assignment `exits[dir] = target`: overwrite or insert. -/
def setExit (exits : List (Str × Str)) (dir target : Str) : List (Str × Str) :=
  if (lookupExit exits dir).isSome then
    exits.map (fun p => if p.1 = dir then (p.1, target) else p)
  else exits ++ [(dir, target)]

/-- The exit-merging loop of `AddRoom`: add only directions not yet present. -/
def mergeExits (existing incoming : List (Str × Str)) : List (Str × Str) :=
  incoming.foldl
    (fun acc p => if (lookupExit acc p.1).isSome then acc else acc ++ [p]) existing

def RoomGraph.GetRoom (g : RoomGraph) (id : Str) : Option Room :=
  lookupRoom g.rooms id

/-- `RoomGraph.AddRoom` (graph.go); `now` stands for `time.Now()`. -/
def RoomGraph.AddRoom (g : RoomGraph) (room : Room) (now : Nat) : RoomGraph :=
  match lookupRoom g.rooms room.id with
  | some _ =>
    { g with rooms := updateRoom g.rooms room.id (fun existing =>
        let e1 : Room := { existing with visited := now, visitCount := existing.visitCount + 1 }
        let e2 : Room := if e1.description ≠ room.description
                         then { e1 with description := room.description } else e1
        { e2 with exits := mergeExits e2.exits room.exits }) }
  | none =>
    { g with rooms := g.rooms ++ [(room.id, { room with visited := now, visitCount := 1 })] }

/-- The update-in-place-or-append loop of `RoomGraph.AddExit`. -/
def addExitList : List Exit → Str → Str → Str → List Exit
  | [], f, d, t => [⟨f, d, t⟩]
  | e :: rest, f, d, t =>
    if e.fromId = f ∧ e.direction = d then { e with toId := t } :: rest
    else e :: addExitList rest f d t

def RoomGraph.AddExit (g : RoomGraph) (fromID direction toID : Str) : RoomGraph :=
  { g with exits := addExitList g.exits fromID direction toID }

/-- `RoomGraph.FindRoomAt`: some room at exactly these coordinates. -/
def RoomGraph.FindRoomAt (g : RoomGraph) (x y z : Int) : Option Room :=
  (g.rooms.find? (fun p => p.2.x == x && p.2.y == y && p.2.z == z)).map (fun p => p.2)

/-! ## Mapper (mapper.go) -/

structure Mapper where
  graph : RoomGraph
  currentRoomID : Str
  previousRoomID : Str
  lastDirection : Str
  clock : Nat

def NewMapper : Mapper := ⟨⟨[], []⟩, [], [], [], 0⟩

/-- `DirectionOffsets` (mapper.go). -/
def DirectionOffsets (d : Str) : Option (Int × Int × Int) :=
  if d = str "n" ∨ d = str "north" then some (0, 1, 0)
  else if d = str "s" ∨ d = str "south" then some (0, -1, 0)
  else if d = str "e" ∨ d = str "east" then some (1, 0, 0)
  else if d = str "w" ∨ d = str "west" then some (-1, 0, 0)
  else if d = str "ne" ∨ d = str "northeast" then some (1, 1, 0)
  else if d = str "nw" ∨ d = str "northwest" then some (-1, 1, 0)
  else if d = str "se" ∨ d = str "southeast" then some (1, -1, 0)
  else if d = str "sw" ∨ d = str "southwest" then some (-1, -1, 0)
  else if d = str "u" ∨ d = str "up" then some (0, 0, 1)
  else if d = str "d" ∨ d = str "down" then some (0, 0, -1)
  else none

/-- `OppositeDirection` (mapper.go); a Go map read yields `""` on a miss. -/
def OppositeDirection (d : Str) : Str :=
  if d = str "n" then str "s" else if d = str "north" then str "south"
  else if d = str "s" then str "n" else if d = str "south" then str "north"
  else if d = str "e" then str "w" else if d = str "east" then str "west"
  else if d = str "w" then str "e" else if d = str "west" then str "east"
  else if d = str "ne" then str "sw" else if d = str "northeast" then str "southwest"
  else if d = str "nw" then str "se" else if d = str "northwest" then str "southeast"
  else if d = str "se" then str "nw" else if d = str "southeast" then str "northwest"
  else if d = str "sw" then str "ne" else if d = str "southwest" then str "northeast"
  else if d = str "u" then str "d" else if d = str "up" then str "down"
  else if d = str "d" then str "u" else if d = str "down" then str "up"
  else []

/-- One direction of `linkRooms`: the map write `room.Exits[dir] = toID`
paired with the `AddExit` call on the flat list. -/
def RoomGraph.linkStep (g : RoomGraph) (fromID dir toID : Str) : RoomGraph :=
  { rooms := updateRoom g.rooms fromID (fun r => { r with exits := setExit r.exits dir toID }),
    exits := addExitList g.exits fromID dir toID }

/-- `Mapper.linkRooms` (mapper.go). -/
def Mapper.linkRooms (m : Mapper) (fromID direction toID : Str) : Mapper :=
  match lookupRoom m.graph.rooms fromID, lookupRoom m.graph.rooms toID with
  | some _, some _ =>
    let dir := toLowerStr direction
    let g1 := m.graph.linkStep fromID dir toID
    let rdir := OppositeDirection dir
    if rdir ≠ [] then { m with graph := g1.linkStep toID rdir fromID }
    else { m with graph := g1 }
  | _, _ => m

/-- `Mapper.OnMovement` (mapper.go). -/
def Mapper.OnMovement (m : Mapper) (direction : Str) : Mapper :=
  { m with lastDirection := direction }

/-- Coordinate selection for a new room (`OnRoomEntered`, lines 101-128). -/
def Mapper.newRoomCoords (m : Mapper) : Int × Int × Int :=
  if m.currentRoomID ≠ [] ∧ m.lastDirection ≠ [] then
    match lookupRoom m.graph.rooms m.currentRoomID with
    | some prevRoom =>
      let base : Int × Int × Int :=
        match DirectionOffsets (toLowerStr m.lastDirection) with
        | some o => (prevRoom.x + o.1, prevRoom.y + o.2.1, prevRoom.z + o.2.2)
        | none => (prevRoom.x + 1, prevRoom.y, prevRoom.z)
      if (m.graph.FindRoomAt base.1 base.2.1 base.2.2).isSome then
        (base.1 + 1, base.2.1, base.2.2)
      else base
    | none => (0, 0, 0)
  else (0, 0, 0)

/-- The exit-initialisation loop of `OnRoomEntered`: all listed exits map to
`""` (unexplored). -/
def buildExits (exits : List Str) : List (Str × Str) :=
  exits.foldl (fun acc e => setExit acc (toLowerStr e) []) []

/-- The `&Room{...}` literal built by the new-room branch of `OnRoomEntered`
(lines 130-144): fresh record at the computed coordinates, all listed exits
unexplored, every other field left at its zero value. -/
def Mapper.freshRoom (m : Mapper) (name description : Str) (exits : List Str) : Room :=
  { id := GenerateRoomID name description, name := name, description := description,
    x := m.newRoomCoords.1, y := m.newRoomCoords.2.1, z := m.newRoomCoords.2.2,
    exits := buildExits exits, imagePath := [], visited := 0, visitCount := 0,
    uncertain := false, notes := [] }

/-- `Mapper.OnRoomEntered` (mapper.go). Note that in the new-room branch the
link guard reads `PreviousRoomID` before the previous/current pointers are
advanced, exactly as the Go code does. -/
def Mapper.OnRoomEntered (m : Mapper) (name description : Str) (exits : List Str) :
    Str × Mapper :=
  let roomID := GenerateRoomID name description
  match m.graph.GetRoom roomID with
  | some existingRoom =>
    let m1 : Mapper := { m with previousRoomID := m.currentRoomID, currentRoomID := roomID,
                                graph := m.graph.AddRoom existingRoom m.clock,
                                clock := m.clock + 1 }
    let m2 := if m1.previousRoomID ≠ [] ∧ m1.lastDirection ≠ [] then
                m1.linkRooms m1.previousRoomID m1.lastDirection roomID
              else m1
    (roomID, { m2 with lastDirection := [] })
  | none =>
    let m1 : Mapper := { m with graph := m.graph.AddRoom (m.freshRoom name description exits)
                                           m.clock,
                                clock := m.clock + 1 }
    let m2 := if m.previousRoomID ≠ [] ∧ m.lastDirection ≠ [] then
                m1.linkRooms m.previousRoomID m.lastDirection roomID
              else m1
    (roomID, { m2 with previousRoomID := m.currentRoomID, currentRoomID := roomID,
                       lastDirection := [] })

/-! ## Operation sequences driving the mapper -/

/-- The two mapper entry points exercised by the ingestion path. -/
inductive MapOp where
  | move (direction : Str)
  | enter (name description : Str) (exits : List Str)

def Mapper.applyOp (m : Mapper) : MapOp → Mapper
  | .move d => m.OnMovement d
  | .enter n d e => (m.OnRoomEntered n d e).2

def Mapper.run (ops : List MapOp) : Mapper := ops.foldl Mapper.applyOp NewMapper

/-! ## Observers used in the statements -/

def visitCountOf (m : Mapper) (id : Str) : Nat :=
  match lookupRoom m.graph.rooms id with
  | some r => r.visitCount
  | none => 0

def coordsOf (m : Mapper) (id : Str) : Option (Int × Int × Int) :=
  (lookupRoom m.graph.rooms id).map (fun r => (r.x, r.y, r.z))

def uncertainOf (m : Mapper) (id : Str) : Option Bool :=
  (lookupRoom m.graph.rooms id).map (fun r => r.uncertain)

/-- The per-room view: the target recorded in room `id`'s exit map under
direction `d`. -/
def roomExitTarget (g : RoomGraph) (id d : Str) : Option Str :=
  (lookupRoom g.rooms id).bind (fun r => lookupExit r.exits d)

/-! ## Persistence (Mapper.LoadMap)

The file system and JSON decoder are external to the core; a load attempt
has three observable outcomes, which enter as an explicit oracle value. -/

/-- `MapData`: the serialised snapshot document. -/
structure MapData where
  version : Str
  serverName : Str
  graph : RoomGraph
  currentRoomID : Str

def MapVersion : Str := str "1.0"

/-- Outcome of reading the snapshot file: absent, present but undecodable,
or decoded into a document. -/
inductive SnapshotFile where
  | missing
  | malformed
  | parsed (data : MapData)

/-- `Mapper.LoadMap`: a missing file is not an error; a decode failure
returns the error before any state is assigned; a decoded document is
installed unconditionally (the version check only logs a warning). -/
def Mapper.LoadMap (m : Mapper) (file : SnapshotFile) : Mapper × Option Str :=
  match file with
  | .missing => (m, none)
  | .malformed => (m, some (str "failed to unmarshal map data"))
  | .parsed d => ({ m with graph := d.graph, currentRoomID := d.currentRoomID }, none)

/-! ## Line parser (parser/wolfmud.go)

The four `regexp` patterns are compiled here into explicit scanners with
Go's leftmost-first match semantics; `.` never matches a newline and `\s`
is RE2's `[\t\n\f\r ]`. -/

inductive OutputType where
  | unknown
  | roomDescription
  | roomTitle
  | exits
  | inventory
  | mobs
  | prompt
  | system
  | say
  | tell
deriving DecidableEq

structure ParsedOutput where
  type : OutputType
  content : Str
  cleanText : Str
  rawText : Str
  roomName : Str
  exits : List Str
  items : List Str
  mobs : List Str
  isRoomEntry : Bool

/-- RE2 `\s`. -/
def re2Space (c : Char) : Bool :=
  c == ' ' || c == '\t' || c == '\n' || c.toNat == 12 || c.toNat == 13

def nonNL (c : Char) : Bool := c != '\n'

def digitSemi (c : Char) : Bool := c.isDigit || c == ';'

def isAsciiLetter (c : Char) : Bool :=
  (97 ≤ c.toNat && c.toNat ≤ 122) || (65 ≤ c.toNat && c.toNat ≤ 90)

/-- Length matched by `\x1b\[[0-9;]*m` at the head of the input. -/
def matchColor : Str → Option Nat
  | '\x1b' :: '[' :: rest =>
    let run := rest.takeWhile digitSemi
    match rest.drop run.length with
    | 'm' :: _ => some (3 + run.length)
    | _ => none
  | _ => none

/-- Length matched by `\x1b\[[0-9;]*[a-zA-Z]` at the head of the input. -/
def matchAnsi : Str → Option Nat
  | '\x1b' :: '[' :: rest =>
    let run := rest.takeWhile digitSemi
    match rest.drop run.length with
    | c :: _ => if isAsciiLetter c then some (3 + run.length) else none
    | [] => none
  | _ => none

/-- Length matched by `\x1b\[[0-9]+;[0-9]+[HfABCDEFGJKST]` at the head. -/
def matchCursor : Str → Option Nat
  | '\x1b' :: '[' :: rest =>
    let d1 := rest.takeWhile Char.isDigit
    if d1.isEmpty then none
    else
      match rest.drop d1.length with
      | ';' :: rest2 =>
        let d2 := rest2.takeWhile Char.isDigit
        if d2.isEmpty then none
        else
          match rest2.drop d2.length with
          | c :: _ =>
            if (str "HfABCDEFGJKST").contains c then some (4 + d1.length + d2.length)
            else none
          | [] => none
      | _ => none
  | _ => none

/-- Length matched by `\x1b[78]` at the head of the input. -/
def matchEsc78 : Str → Option Nat
  | '\x1b' :: c :: _ => if c = '7' ∨ c = '8' then some 2 else none
  | _ => none

/-- Length matched by `\x1b\[2J` at the head of the input. -/
def matchClear : Str → Option Nat
  | '\x1b' :: '[' :: '2' :: 'J' :: _ => some 4
  | _ => none

/-- `ReplaceAllString(pat, "")` for a pattern that never matches the empty
string: delete successive leftmost matches. Fuel is the input length, which
suffices because every match consumes at least one character. -/
def replAllAux (matchAt : Str → Option Nat) : Nat → Str → Str
  | 0, s => s
  | _ + 1, [] => []
  | fuel + 1, c :: rest =>
    match matchAt (c :: rest) with
    | some n => replAllAux matchAt fuel ((c :: rest).drop (max n 1))
    | none => c :: replAllAux matchAt fuel rest

def replAll (matchAt : Str → Option Nat) (s : Str) : Str := replAllAux matchAt s.length s

/-- `stripColorCodes`: the five replacement passes, in source order. -/
def stripColorCodes (text : Str) : Str :=
  replAll matchClear (replAll matchEsc78 (replAll matchCursor
    (replAll matchAnsi (replAll matchColor text))))

/-- Existence of a split `.*[\]>]\s*$` in the tail of a prompt candidate. -/
def promptTail : Str → Bool
  | [] => false
  | c :: rest => ((c == ']' || c == '>') && rest.all re2Space) || (nonNL c && promptTail rest)

/-- `promptRegex`: `^[\[<].*[\]>]\s*$`. -/
def promptMatch : Str → Bool
  | [] => false
  | c :: rest => (c == '[' || c == '<') && promptTail rest

def stripPrefixStr : Str → Str → Option Str
  | [], s => some s
  | _, [] => none
  | p :: ps, c :: cs => if p = c then stripPrefixStr ps cs else none

/-- The submatch of `\s*(.+)$`: drop the longest whitespace prefix that
still leaves a nonempty newline-free remainder (greedy `\s*`, then
backtracking, leftmost-first). -/
def findGroup (r : Str) : Nat → Option Str
  | 0 => if r ≠ [] ∧ r.all nonNL then some r else none
  | j + 1 =>
    let g := r.drop (j + 1)
    if g ≠ [] ∧ g.all nonNL then some g else findGroup r j

/-- `exitRegex`: the capture of `^Exits?:\s*(.+)$`, if the line matches. -/
def exitsSubmatch (s : Str) : Option Str :=
  match stripPrefixStr (str "Exits:") s with
  | some r => findGroup r (r.takeWhile re2Space).length
  | none =>
    match stripPrefixStr (str "Exit:") s with
    | some r => findGroup r (r.takeWhile re2Space).length
    | none => none

/-- Suffixes reachable by consuming a nonempty prefix matching `\s+`. -/
def spacePlusSuffixes (r : Str) : List Str :=
  (List.range (r.takeWhile re2Space).length).map (fun i => r.drop (i + 1))

def splitsOf (s : Str) : List (Str × Str) :=
  (List.range (s.length + 1)).map (fun i => (s.take i, s.drop i))

/-- `^.*\.$` on the remaining text: nonempty, ends in a dot, newline-free. -/
def endsDotStar (r : Str) : Bool :=
  !r.isEmpty && r.getLast? == some '.' && r.dropLast.all nonNL

def invVerbs : List Str :=
  [str "is", str "are", str "sit", str "sits", str "lie", str "lies",
   str "stand", str "stands", str "rest", str "rests"]

def invArticles : List Str := [str "A", str "An", str "The"]

/-- `inventoryRegex`: `^(A|An|The)\s+.*\s+(is|are|sits?|lies?|stands?|rests?)\s+.*\.$`
as an existence check over all decompositions. -/
def invMatch (s : Str) : Bool :=
  invArticles.any (fun art =>
    match stripPrefixStr art s with
    | some r1 =>
      (spacePlusSuffixes r1).any (fun r2 =>
        (splitsOf r2).any (fun p =>
          p.1.all nonNL &&
          (spacePlusSuffixes p.2).any (fun r3 =>
            invVerbs.any (fun v =>
              match stripPrefixStr v r3 with
              | some r4 => (spacePlusSuffixes r4).any endsDotStar
              | none => false))))
    | none => false)

/-- `strings.Fields`. -/
def fieldsAux : Str → Str → List Str
  | [], acc => if acc.isEmpty then [] else [acc.reverse]
  | c :: rest, acc =>
    if goIsSpace c then
      (if acc.isEmpty then fieldsAux rest [] else acc.reverse :: fieldsAux rest [])
    else fieldsAux rest (c :: acc)

def fields (s : Str) : List Str := fieldsAux s []

/-- `strings.Join(words, " ")`. -/
def joinSpace : List Str → Str
  | [] => []
  | [w] => w
  | w :: rest => w ++ ' ' :: joinSpace rest

def isArticleWord (w : Str) : Bool := w == str "a" || w == str "an" || w == str "the"

def isStativeVerb (w : Str) : Bool :=
  w == str "is" || w == str "are" || w == str "sits" || w == str "lies" ||
  w == str "stands" || w == str "rests"

/-- The scan loop of `extractItemName`: either an early return value, or the
value of `start` when the loop exits (by break or exhaustion). -/
def extractScan (allWords : List Str) : List Str → Nat → Nat → Option Str × Nat
  | [], _, start => (none, start)
  | w :: rest, i, start =>
    let lower := toLowerStr w
    if isArticleWord lower then extractScan allWords rest (i + 1) (i + 1)
    else if isStativeVerb lower then
      if start < i then (some (joinSpace ((allWords.drop start).take (i - start))), start)
      else (none, start)
    else extractScan allWords rest (i + 1) start

def extractItemName (line : Str) : Str :=
  let words := fields line
  if words.length < 2 then line
  else
    match extractScan words words 0 0 with
    | (some r, _) => r
    | (none, start) =>
      if start < words.length then
        let e := min (start + 3) words.length
        joinSpace ((words.drop start).take (e - start))
      else line

/-- Byte-level `strings.Contains(line, ". ")`. -/
def containsDotSpace : List Nat → Bool
  | 46 :: 32 :: _ => true
  | _ :: rest => containsDotSpace rest
  | [] => false

/-- `isRoomTitle` (wolfmud.go); lengths and indexing are byte-based in Go. -/
def isRoomTitle (line : Str) : Bool :=
  if (utf8Bytes line).length > 50 then false
  else
    let l := goTrimSpace line
    if l.isEmpty then false
    else
      let lastByte := (utf8Bytes l).getLastD 0
      if lastByte == 46 || lastByte == 33 || lastByte == 63 then false
      else if containsDotSpace (utf8Bytes l) then false
      else true

def apos : Char := Char.ofNat 39

def systemMsgHeads : List Str :=
  [str "You can" ++ [apos] ++ str "t", str "You don" ++ [apos] ++ str "t",
   str "You aren" ++ [apos] ++ str "t", str "You are", str "You have", str "You see",
   str "There is", str "There are", str "It is", str "You feel", str "You hear",
   str "You smell"]

def isSystemMessage (line : Str) : Bool :=
  systemMsgHeads.any (fun p => (stripPrefixStr p line).isSome)

/-- `strings.Split(s, ",")`. -/
def splitOnComma : Str → List Str
  | [] => [[]]
  | c :: rest =>
    if c = ',' then [] :: splitOnComma rest
    else
      match splitOnComma rest with
      | s :: ss => (c :: s) :: ss
      | [] => [[c]]

/-- `parseExits` (wolfmud.go): split on commas, trim, drop empties, keep order. -/
def parseExits (exitStr : Str) : List Str :=
  (splitOnComma exitStr).foldl
    (fun acc e => let e2 := goTrimSpace e; if e2 ≠ [] then acc ++ [e2] else acc) []

/-- `WolfMUDParser.ParseLine` (wolfmud.go): the ordered classification. -/
def ParseLine (line : Str) : ParsedOutput :=
  let cleaned := stripColorCodes line
  let base : ParsedOutput :=
    { type := .unknown, content := [], cleanText := cleaned, rawText := line,
      roomName := [], exits := [], items := [], mobs := [], isRoomEntry := false }
  if goTrimSpace cleaned = [] then base
  else if promptMatch cleaned then { base with type := .prompt, content := cleaned }
  else
    match exitsSubmatch cleaned with
    | some g => { base with type := .exits, content := g, exits := parseExits g }
    | none =>
      if invMatch cleaned then
        { base with type := .inventory, content := cleaned,
                    items := [extractItemName cleaned] }
      else if isRoomTitle cleaned then
        { base with type := .roomTitle, content := cleaned, roomName := cleaned,
                    isRoomEntry := true }
      else if isSystemMessage cleaned then { base with type := .system, content := cleaned }
      else { base with type := .roomDescription, content := cleaned }

/-! ## Basic lemmas on the UTF-8 encoder and the hash -/

theorem utf8Char_length_pos (c : Char) : 0 < (utf8Char c).length := by
  unfold utf8Char
  dsimp only
  split_ifs <;> simp

theorem utf8Bytes_cons (c : Char) (s : Str) :
    utf8Bytes (c :: s) = utf8Char c ++ utf8Bytes s := rfl

theorem utf8Bytes_append (a b : Str) :
    utf8Bytes (a ++ b) = utf8Bytes a ++ utf8Bytes b := by
  induction a with
  | nil => rfl
  | cons c rest ih => simp [utf8Bytes_cons, ih]

theorem length_le_length_utf8Bytes (s : Str) : s.length ≤ (utf8Bytes s).length := by
  induction s with
  | nil => simp [utf8Bytes]
  | cons c rest ih =>
    rw [utf8Bytes_cons, List.length_append, List.length_cons]
    have := utf8Char_length_pos c
    omega

/-- Truncating the byte sequence at `n` only sees the first `n` characters. -/
theorem take_utf8Bytes_take (s : Str) (n : Nat) :
    (utf8Bytes s).take n = (utf8Bytes (s.take n)).take n := by
  by_cases h : s.length ≤ n
  · rw [List.take_of_length_le h]
  · have hsplit : s = s.take n ++ s.drop n := (List.take_append_drop n s).symm
    calc (utf8Bytes s).take n
        = (utf8Bytes (s.take n) ++ utf8Bytes (s.drop n)).take n := by
          conv_lhs => rw [hsplit]
          rw [utf8Bytes_append]
      _ = (utf8Bytes (s.take n)).take n := by
          apply List.take_append_of_le_length
          have h1 : (s.take n).length = n := by
            rw [List.length_take]
            omega
          have := length_le_length_utf8Bytes (s.take n)
          omega

/-- C6: `GenerateRoomID` is a pure function of the name and the description
truncated to its first 100 characters: equal names and descriptions agreeing
on the first 100 characters give equal ids; no graph state, ordering or
counter enters the signature. -/
theorem generateRoomID_pure (n1 n2 d1 d2 : Str)
    (hn : n1 = n2) (hd : d1.take 100 = d2.take 100) :
    GenerateRoomID n1 d1 = GenerateRoomID n2 d2 := by
  subst hn
  unfold GenerateRoomID
  have hb : (utf8Bytes d1).take 100 = (utf8Bytes d2).take 100 := by
    rw [take_utf8Bytes_take d1 100, take_utf8Bytes_take d2 100, hd]
  rw [hb]

/-- Witness for C6: two distinct maze-room descriptions that agree on their
first 100 characters hash to the same id. -/
theorem generateRoomID_pure_witness :
    (List.replicate 100 'a' ++ [' ', 'X'] : Str) ≠ List.replicate 100 'a' ++ [' ', 'Y'] ∧
    GenerateRoomID (str "Dark Corridor") (List.replicate 100 'a' ++ [' ', 'X']) =
      GenerateRoomID (str "Dark Corridor") (List.replicate 100 'a' ++ [' ', 'Y']) := by
  constructor
  · decide
  · exact generateRoomID_pure _ _ _ _ rfl (by decide)

/-! ## Association-list lemmas -/

theorem lookupRoom_append_of_isSome {l : List (Str × Room)} {id : Str} {v : Room}
    (h : lookupRoom l id = some v) (k : Str) (r : Room) :
    lookupRoom (l ++ [(k, r)]) id = some v := by
  induction l with
  | nil => simp [lookupRoom] at h
  | cons p rest ih =>
    by_cases hp : p.1 = id
    · simp_all [lookupRoom]
    · simp_all [lookupRoom]

theorem lookupRoom_append_of_none {l : List (Str × Room)} {id : Str}
    (h : lookupRoom l id = none) (k : Str) (r : Room) :
    lookupRoom (l ++ [(k, r)]) id = if k = id then some r else none := by
  induction l with
  | nil => simp [lookupRoom]
  | cons p rest ih =>
    by_cases hp : p.1 = id
    · simp_all [lookupRoom]
    · simp_all [lookupRoom]

theorem lookupRoom_updateRoom (l : List (Str × Room)) (id : Str) (f : Room → Room)
    (id' : Str) :
    lookupRoom (updateRoom l id f) id' =
      if id' = id then (lookupRoom l id').map f else lookupRoom l id' := by
  induction l with
  | nil => simp [updateRoom, lookupRoom]
  | cons p rest ih =>
    simp only [updateRoom, List.map_cons] at ih ⊢
    by_cases h1 : p.1 = id
    · by_cases h2 : p.1 = id'
      · have hii : id' = id := by rw [← h2, h1]
        simp [lookupRoom, h1, h2, hii]
      · simp only [lookupRoom, if_pos h1, if_neg h2, ih]
    · by_cases h2 : p.1 = id'
      · have hii : ¬id' = id := fun h => h1 (by rw [h2, h])
        simp [lookupRoom, h1, h2, hii]
      · simp only [lookupRoom, if_neg h1, if_neg h2, ih]

theorem lookupExit_append_of_isSome {l : List (Str × Str)} {d : Str} {v : Str}
    (h : lookupExit l d = some v) (k t : Str) :
    lookupExit (l ++ [(k, t)]) d = some v := by
  induction l with
  | nil => simp [lookupExit] at h
  | cons p rest ih =>
    by_cases hp : p.1 = d
    · simp_all [lookupExit]
    · simp_all [lookupExit]

theorem lookupExit_append_of_none {l : List (Str × Str)} {d : Str}
    (h : lookupExit l d = none) (k t : Str) :
    lookupExit (l ++ [(k, t)]) d = if k = d then some t else none := by
  induction l with
  | nil => simp [lookupExit]
  | cons p rest ih =>
    by_cases hp : p.1 = d
    · simp_all [lookupExit]
    · simp_all [lookupExit]

theorem lookupExit_mapUpdate (l : List (Str × Str)) (d t d' : Str) :
    lookupExit (l.map (fun p => if p.1 = d then (p.1, t) else p)) d' =
      if d' = d then (lookupExit l d').map (fun _ => t) else lookupExit l d' := by
  induction l with
  | nil => simp [lookupExit]
  | cons p rest ih =>
    by_cases h1 : p.1 = d
    · by_cases h2 : p.1 = d'
      · have hii : d' = d := by rw [← h2, h1]
        simp [lookupExit, h1, h2, hii]
      · simp only [List.map_cons, if_pos h1, lookupExit, if_neg h2, ih]
    · by_cases h2 : p.1 = d'
      · have hii : ¬d' = d := fun h => h1 (by rw [h2, h])
        simp [lookupExit, h1, h2, hii]
      · simp only [List.map_cons, if_neg h1, lookupExit, if_neg h2, ih]

theorem lookupExit_setExit (l : List (Str × Str)) (d t d' : Str) :
    lookupExit (setExit l d t) d' = if d' = d then some t else lookupExit l d' := by
  unfold setExit
  by_cases hp : (lookupExit l d).isSome
  · simp only [hp, if_pos, if_true]
    rw [lookupExit_mapUpdate]
    by_cases hd : d' = d
    · subst hd
      obtain ⟨v, hv⟩ := Option.isSome_iff_exists.mp hp
      simp [hv]
    · simp [hd]
  · have hnone : lookupExit l d = none := Option.not_isSome_iff_eq_none.mp hp
    simp only [hp, Bool.false_eq_true, if_false]
    by_cases hd : d' = d
    · subst hd
      rw [lookupExit_append_of_none hnone]
      simp
    · cases hv : lookupExit l d' with
      | some v => rw [lookupExit_append_of_isSome hv, if_neg hd]
      | none =>
        rw [lookupExit_append_of_none hv, if_neg hd, if_neg (fun h => hd (by rw [h]))]

theorem lookupExit_isSome_of_mem {l : List (Str × Str)} {p : Str × Str} (h : p ∈ l) :
    (lookupExit l p.1).isSome := by
  induction l with
  | nil => simp at h
  | cons q rest ih =>
    by_cases hq : q.1 = p.1
    · simp [lookupExit, hq]
    · rcases List.mem_cons.mp h with rfl | hmem
      · exact absurd rfl hq
      · simp [lookupExit, hq, ih hmem]

theorem mergeExits_all_present (l : List (Str × Str)) :
    ∀ acc, (∀ p ∈ l, (lookupExit acc p.1).isSome) → mergeExits acc l = acc := by
  induction l with
  | nil => intro acc _; rfl
  | cons p rest ih =>
    intro acc hacc
    have hp : (lookupExit acc p.1).isSome := hacc p (List.mem_cons_self p rest)
    unfold mergeExits at ih ⊢
    simp only [List.foldl_cons, hp, if_pos, if_true]
    exact ih acc (fun q hq => hacc q (List.mem_cons_of_mem p hq))

theorem mergeExits_self (l : List (Str × Str)) : mergeExits l l = l :=
  mergeExits_all_present l l (fun _ hp => lookupExit_isSome_of_mem hp)

theorem buildExits_fold_targets (exits : List Str) :
    ∀ acc, (∀ d t, lookupExit acc d = some t → t = []) →
      ∀ d t, lookupExit (exits.foldl (fun a e => setExit a (toLowerStr e) []) acc) d = some t →
        t = [] := by
  induction exits with
  | nil => intro acc hacc; exact hacc
  | cons e rest ih =>
    intro acc hacc
    simp only [List.foldl_cons]
    apply ih
    intro d t ht
    rw [lookupExit_setExit] at ht
    split_ifs at ht
    · exact (Option.some.inj ht).symm
    · exact hacc d t ht

/-- Every target recorded by the exit-initialisation loop is `""`. -/
theorem lookupExit_buildExits (exits : List Str) (d t : Str)
    (h : lookupExit (buildExits exits) d = some t) : t = [] :=
  buildExits_fold_targets exits [] (by intro d' t' h'; simp [lookupExit] at h') d t h

/-! ## Shape lemmas on ids and directions -/

theorem length_beBytes (k n : Nat) : (beBytes k n).length = k := by simp [beBytes]

theorem length_sha256 (msg : List Nat) : (sha256 msg).length = 32 := by
  unfold sha256
  simp [length_beBytes]

theorem bytesHex_ne_nil (b : Nat) (rest : List Nat) : bytesHex (b :: rest) ≠ [] := by
  simp [bytesHex, hexByte]

/-- A generated room id is never the empty string. -/
theorem generateRoomID_ne_nil (n d : Str) : GenerateRoomID n d ≠ [] := by
  unfold GenerateRoomID
  have h32 := length_sha256 (utf8Bytes n ++ [124] ++ (utf8Bytes d).take 100)
  cases htake : (sha256 (utf8Bytes n ++ [124] ++ (utf8Bytes d).take 100)).take 16 with
  | nil =>
    have hl := congrArg List.length htake
    rw [List.length_take, h32] at hl
    simp at hl
  | cons b rest =>
    exact bytesHex_ne_nil b rest

/-- A direction with a defined opposite is never its own opposite. -/
theorem ne_oppositeDirection_self (s : Str) (h : OppositeDirection s ≠ []) :
    s ≠ OppositeDirection s := by
  by_cases h1 : s = str "n"
  · subst h1; decide
  by_cases h2 : s = str "north"
  · subst h2; decide
  by_cases h3 : s = str "s"
  · subst h3; decide
  by_cases h4 : s = str "south"
  · subst h4; decide
  by_cases h5 : s = str "e"
  · subst h5; decide
  by_cases h6 : s = str "east"
  · subst h6; decide
  by_cases h7 : s = str "w"
  · subst h7; decide
  by_cases h8 : s = str "west"
  · subst h8; decide
  by_cases h9 : s = str "ne"
  · subst h9; decide
  by_cases h10 : s = str "northeast"
  · subst h10; decide
  by_cases h11 : s = str "nw"
  · subst h11; decide
  by_cases h12 : s = str "northwest"
  · subst h12; decide
  by_cases h13 : s = str "se"
  · subst h13; decide
  by_cases h14 : s = str "southeast"
  · subst h14; decide
  by_cases h15 : s = str "sw"
  · subst h15; decide
  by_cases h16 : s = str "southwest"
  · subst h16; decide
  by_cases h17 : s = str "u"
  · subst h17; decide
  by_cases h18 : s = str "up"
  · subst h18; decide
  by_cases h19 : s = str "d"
  · subst h19; decide
  by_cases h20 : s = str "down"
  · subst h20; decide
  exact absurd (by
    unfold OppositeDirection
    simp only [h1, h2, h3, h4, h5, h6, h7, h8, h9, h10, h11, h12, h13, h14, h15,
               h16, h17, h18, h19, h20, if_false]) h

/-! ## Effect of graph operations on lookups -/

theorem lookupRoom_addRoom_self (g : RoomGraph) (r : Room) (now : Nat)
    (h : lookupRoom g.rooms r.id = some r) (id' : Str) :
    lookupRoom (g.AddRoom r now).rooms id' =
      if id' = r.id then some { r with visited := now, visitCount := r.visitCount + 1 }
      else lookupRoom g.rooms id' := by
  unfold RoomGraph.AddRoom
  simp only [h]
  rw [lookupRoom_updateRoom]
  by_cases hid : id' = r.id
  · subst hid
    rw [if_pos rfl, if_pos rfl, h]
    simp [mergeExits_self]
  · rw [if_neg hid, if_neg hid]

theorem lookupRoom_addRoom_new (g : RoomGraph) (room : Room) (now : Nat)
    (h : lookupRoom g.rooms room.id = none) (id' : Str) :
    lookupRoom (g.AddRoom room now).rooms id' =
      if id' = room.id then some { room with visited := now, visitCount := 1 }
      else lookupRoom g.rooms id' := by
  unfold RoomGraph.AddRoom
  simp only [h]
  by_cases hid : id' = room.id
  · subst hid
    rw [lookupRoom_append_of_none h, if_pos rfl, if_pos rfl]
  · rw [if_neg hid]
    cases hv : lookupRoom g.rooms id' with
    | some v => rw [lookupRoom_append_of_isSome hv]
    | none =>
      rw [lookupRoom_append_of_none hv, if_neg (fun hk => hid (by rw [hk]))]

theorem lookupRoom_linkStep (g : RoomGraph) (fid dir tid id' : Str) :
    lookupRoom (g.linkStep fid dir tid).rooms id' =
      (lookupRoom g.rooms id').map
        (fun r => if id' = fid then { r with exits := setExit r.exits dir tid } else r) := by
  unfold RoomGraph.linkStep
  rw [lookupRoom_updateRoom]
  by_cases h : id' = fid
  · simp [h]
  · cases lookupRoom g.rooms id' <;> simp [h]

theorem linkStep_exits (g : RoomGraph) (fid dir tid : Str) :
    (g.linkStep fid dir tid).exits = addExitList g.exits fid dir tid := rfl

/-- `linkRooms` rewrites only exit maps: every room lookup is transported by
a function preserving id, visit count, coordinates and the uncertain flag. -/
theorem lookupRoom_linkRooms (m : Mapper) (a b c id : Str) :
    ∃ f : Room → Room,
      (∀ r, (f r).id = r.id ∧ (f r).visitCount = r.visitCount ∧ (f r).x = r.x ∧
            (f r).y = r.y ∧ (f r).z = r.z ∧ (f r).uncertain = r.uncertain) ∧
      lookupRoom (m.linkRooms a b c).graph.rooms id =
        (lookupRoom m.graph.rooms id).map f := by
  unfold Mapper.linkRooms
  cases h1 : lookupRoom m.graph.rooms a with
  | none =>
    refine ⟨fun r => r, by simp, ?_⟩
    cases h2 : lookupRoom m.graph.rooms c <;>
      · simp only [h1, h2]
        cases lookupRoom m.graph.rooms id <;> rfl
  | some fr =>
    cases h2 : lookupRoom m.graph.rooms c with
    | none =>
      refine ⟨fun r => r, by simp, ?_⟩
      simp only [h1, h2]
      cases lookupRoom m.graph.rooms id <;> rfl
    | some tr =>
      simp only [h1, h2]
      by_cases h3 : OppositeDirection (toLowerStr b) ≠ []
      · refine ⟨fun r =>
          (fun r2 => if id = c then
              { r2 with exits := setExit r2.exits (OppositeDirection (toLowerStr b)) a }
            else r2)
          ((fun r1 => if id = a then
              { r1 with exits := setExit r1.exits (toLowerStr b) c }
            else r1) r), ?_, ?_⟩
        · intro r
          split_ifs <;> simp
        · rw [if_pos h3]
          rw [lookupRoom_linkStep, lookupRoom_linkStep, Option.map_map]
          rfl
      · refine ⟨fun r1 => if id = a then
            { r1 with exits := setExit r1.exits (toLowerStr b) c } else r1, ?_, ?_⟩
        · intro r
          split_ifs <;> simp
        · rw [if_neg h3]
          rw [lookupRoom_linkStep]

/-- Both branches of `OnRoomEntered` return the generated hash id. -/
theorem onRoomEntered_fst (m : Mapper) (n d : Str) (e : List Str) :
    (m.OnRoomEntered n d e).1 = GenerateRoomID n d := by
  simp only [Mapper.OnRoomEntered]
  cases h : m.graph.GetRoom (GenerateRoomID n d) <;> simp [h]

/-- Both branches of `OnRoomEntered` clear the pending movement. -/
theorem onRoomEntered_lastDirection (m : Mapper) (n d : Str) (e : List Str) :
    (m.OnRoomEntered n d e).2.lastDirection = [] := by
  simp only [Mapper.OnRoomEntered]
  cases h : m.graph.GetRoom (GenerateRoomID n d) <;> simp [h]

theorem lookupRoom_mem {l : List (Str × Room)} {k : Str} {v : Room}
    (h : lookupRoom l k = some v) : (k, v) ∈ l := by
  induction l with
  | nil => simp [lookupRoom] at h
  | cons p rest ih =>
    obtain ⟨pk, pv⟩ := p
    by_cases hp : pk = k
    · simp only [lookupRoom, if_pos hp] at h
      obtain rfl := Option.some.inj h
      rw [hp]
      exact List.mem_cons_self _ _
    · simp only [lookupRoom, if_neg hp] at h
      exact List.mem_cons_of_mem _ (ih h)

/-- Effect of a known-room `OnRoomEntered` call on the room record: the
visit count is bumped by one; a possible relink touches only the exits. -/
theorem onRoomEntered_known (m : Mapper) (n d : Str) (e : List Str) (r : Room)
    (hget : lookupRoom m.graph.rooms (GenerateRoomID n d) = some r)
    (hid : r.id = GenerateRoomID n d) :
    ∃ f : Room → Room,
      (∀ r0, (f r0).id = r0.id ∧ (f r0).visitCount = r0.visitCount ∧ (f r0).x = r0.x ∧
             (f r0).y = r0.y ∧ (f r0).z = r0.z ∧ (f r0).uncertain = r0.uncertain) ∧
      lookupRoom (m.OnRoomEntered n d e).2.graph.rooms (GenerateRoomID n d) =
        some (f { r with visited := m.clock, visitCount := r.visitCount + 1 }) := by
  have hself : lookupRoom m.graph.rooms r.id = some r := by rw [hid]; exact hget
  have hAdd := lookupRoom_addRoom_self m.graph r m.clock hself (GenerateRoomID n d)
  rw [if_pos hid.symm] at hAdd
  simp only [Mapper.OnRoomEntered, RoomGraph.GetRoom, hget]
  by_cases hc : m.currentRoomID ≠ [] ∧ m.lastDirection ≠ []
  · rw [if_pos hc]
    obtain ⟨f, hfprops, hf⟩ :=
      lookupRoom_linkRooms
        { m with previousRoomID := m.currentRoomID, currentRoomID := GenerateRoomID n d,
                 graph := m.graph.AddRoom r m.clock, clock := m.clock + 1 }
        m.currentRoomID m.lastDirection (GenerateRoomID n d) (GenerateRoomID n d)
    refine ⟨f, hfprops, ?_⟩
    rw [hf]
    simp only [hAdd, Option.map_some']
  · rw [if_neg hc]
    exact ⟨fun r0 => r0, by simp, hAdd⟩

/-- Effect of a new-room `OnRoomEntered` call: the room is created at the
computed coordinates with visit count 1 and `uncertain = false`; a possible
link from the stale previous-room pointer touches only exit maps. -/
theorem freshRoom_id (m : Mapper) (n d : Str) (e : List Str) :
    (m.freshRoom n d e).id = GenerateRoomID n d := rfl

theorem onRoomEntered_new (m : Mapper) (n d : Str) (e : List Str)
    (hget : lookupRoom m.graph.rooms (GenerateRoomID n d) = none) :
    ∃ f : Room → Room,
      (∀ r0, (f r0).id = r0.id ∧ (f r0).visitCount = r0.visitCount ∧ (f r0).x = r0.x ∧
             (f r0).y = r0.y ∧ (f r0).z = r0.z ∧ (f r0).uncertain = r0.uncertain) ∧
      lookupRoom (m.OnRoomEntered n d e).2.graph.rooms (GenerateRoomID n d) =
        some (f { m.freshRoom n d e with visited := m.clock, visitCount := 1 }) := by
  have hid : (m.freshRoom n d e).id = GenerateRoomID n d := rfl
  have hAdd := lookupRoom_addRoom_new m.graph (m.freshRoom n d e) m.clock
    (by rw [hid]; exact hget) (GenerateRoomID n d)
  rw [if_pos hid.symm] at hAdd
  simp only [Mapper.OnRoomEntered, RoomGraph.GetRoom, hget]
  by_cases hc : m.previousRoomID ≠ [] ∧ m.lastDirection ≠ []
  · rw [if_pos hc]
    obtain ⟨f, hfprops, hf⟩ :=
      lookupRoom_linkRooms
        { m with graph := m.graph.AddRoom (m.freshRoom n d e) m.clock,
                 clock := m.clock + 1 }
        m.previousRoomID m.lastDirection (GenerateRoomID n d) (GenerateRoomID n d)
    refine ⟨f, hfprops, ?_⟩
    rw [hf]
    simp only [hAdd, Option.map_some']
  · rw [if_neg hc]
    exact ⟨fun r0 => r0, by simp, hAdd⟩

/-- C5: calling `OnRoomEntered` twice with identical name, description and
exits and no intervening movement returns the same id both times, bumps the
visit count by exactly one on each call, and leaves the coordinates
unchanged. (The graph is assumed key-consistent, as every reachable graph
is: each stored room's id field equals its key.) -/
theorem onRoomEntered_idempotent (m : Mapper) (name desc : Str) (exits : List Str)
    (hwf : ∀ p ∈ m.graph.rooms, p.2.id = p.1) :
    (m.OnRoomEntered name desc exits).1 =
      ((m.OnRoomEntered name desc exits).2.OnRoomEntered name desc exits).1 ∧
    visitCountOf (m.OnRoomEntered name desc exits).2 (GenerateRoomID name desc) =
      visitCountOf m (GenerateRoomID name desc) + 1 ∧
    visitCountOf ((m.OnRoomEntered name desc exits).2.OnRoomEntered name desc exits).2
        (GenerateRoomID name desc) =
      visitCountOf (m.OnRoomEntered name desc exits).2 (GenerateRoomID name desc) + 1 ∧
    coordsOf ((m.OnRoomEntered name desc exits).2.OnRoomEntered name desc exits).2
        (GenerateRoomID name desc) =
      coordsOf (m.OnRoomEntered name desc exits).2 (GenerateRoomID name desc) := by
  have hfst : (m.OnRoomEntered name desc exits).1 = GenerateRoomID name desc :=
    onRoomEntered_fst m name desc exits
  have hfst2 := onRoomEntered_fst (m.OnRoomEntered name desc exits).2 name desc exits
  -- the record stored after the first call
  have hcall1 : ∃ r1 : Room,
      lookupRoom (m.OnRoomEntered name desc exits).2.graph.rooms
        (GenerateRoomID name desc) = some r1 ∧
      r1.id = GenerateRoomID name desc ∧
      r1.visitCount = visitCountOf m (GenerateRoomID name desc) + 1 := by
    cases hget : lookupRoom m.graph.rooms (GenerateRoomID name desc) with
    | some r =>
      have hid : r.id = GenerateRoomID name desc := by
        have := hwf _ (lookupRoom_mem hget)
        exact this
      obtain ⟨f, hfprops, hf⟩ := onRoomEntered_known m name desc exits r hget hid
      refine ⟨_, hf, ?_, ?_⟩
      · rw [(hfprops _).1, hid]
      · rw [(hfprops _).2.1]
        simp [visitCountOf, hget]
    | none =>
      obtain ⟨f, hfprops, hf⟩ := onRoomEntered_new m name desc exits hget
      refine ⟨_, hf, ?_, ?_⟩
      · rw [(hfprops _).1]
        rfl
      · rw [(hfprops _).2.1]
        simp [visitCountOf, hget]
  obtain ⟨r1, hr1, hr1id, hr1count⟩ := hcall1
  -- the second call goes through the known-room branch of the bumped record
  obtain ⟨g, hgprops, hg⟩ :=
    onRoomEntered_known (m.OnRoomEntered name desc exits).2 name desc exits r1 hr1 hr1id
  refine ⟨by rw [hfst, hfst2], ?_, ?_, ?_⟩
  · simp [visitCountOf, hr1, hr1count]
  · simp only [visitCountOf, hg, hr1]
    rw [(hgprops _).2.1]
  · simp only [coordsOf, hg, hr1, Option.map_some']
    rw [(hgprops _).2.2.1, (hgprops _).2.2.2.1, (hgprops _).2.2.2.2.1]

/-- Witness for C5: both calls on a fresh mapper observe the claimed visit
counts and coordinates; a fresh graph is trivially key-consistent. -/
theorem onRoomEntered_idempotent_witness :
    (∀ p ∈ NewMapper.graph.rooms, p.2.id = p.1) ∧
    ((NewMapper.OnRoomEntered (str "Tavern") (str "A cosy tavern.") [str "north"]).1 =
      ((NewMapper.OnRoomEntered (str "Tavern") (str "A cosy tavern.")
          [str "north"]).2.OnRoomEntered (str "Tavern") (str "A cosy tavern.")
          [str "north"]).1 ∧
    visitCountOf (NewMapper.OnRoomEntered (str "Tavern") (str "A cosy tavern.")
        [str "north"]).2 (GenerateRoomID (str "Tavern") (str "A cosy tavern.")) =
      visitCountOf NewMapper (GenerateRoomID (str "Tavern") (str "A cosy tavern.")) + 1 ∧
    visitCountOf ((NewMapper.OnRoomEntered (str "Tavern") (str "A cosy tavern.")
        [str "north"]).2.OnRoomEntered (str "Tavern") (str "A cosy tavern.")
        [str "north"]).2 (GenerateRoomID (str "Tavern") (str "A cosy tavern.")) =
      visitCountOf (NewMapper.OnRoomEntered (str "Tavern") (str "A cosy tavern.")
        [str "north"]).2 (GenerateRoomID (str "Tavern") (str "A cosy tavern.")) + 1 ∧
    coordsOf ((NewMapper.OnRoomEntered (str "Tavern") (str "A cosy tavern.")
        [str "north"]).2.OnRoomEntered (str "Tavern") (str "A cosy tavern.")
        [str "north"]).2 (GenerateRoomID (str "Tavern") (str "A cosy tavern.")) =
      coordsOf (NewMapper.OnRoomEntered (str "Tavern") (str "A cosy tavern.")
        [str "north"]).2 (GenerateRoomID (str "Tavern") (str "A cosy tavern."))) :=
  ⟨by intro p hp; simp [NewMapper] at hp,
   onRoomEntered_idempotent NewMapper (str "Tavern") (str "A cosy tavern.") [str "north"]
     (by intro p hp; simp [NewMapper] at hp)⟩

/-- C10: re-resolving the current room while a pending movement with a
defined opposite is recorded creates a self-loop in both directions, and the
previous-room pointer ends up equal to the current-room pointer. -/
theorem selfLoop_on_revisit (m : Mapper) (name desc : Str) (exits : List Str) (room : Room)
    (hcur : m.currentRoomID = GenerateRoomID name desc)
    (hget : lookupRoom m.graph.rooms m.currentRoomID = some room)
    (hid : room.id = m.currentRoomID)
    (hld : m.lastDirection ≠ [])
    (hopp : OppositeDirection (toLowerStr m.lastDirection) ≠ []) :
    roomExitTarget (m.OnRoomEntered name desc exits).2.graph m.currentRoomID
        (toLowerStr m.lastDirection) = some m.currentRoomID ∧
    roomExitTarget (m.OnRoomEntered name desc exits).2.graph m.currentRoomID
        (OppositeDirection (toLowerStr m.lastDirection)) = some m.currentRoomID ∧
    (m.OnRoomEntered name desc exits).2.previousRoomID =
      (m.OnRoomEntered name desc exits).2.currentRoomID ∧
    (m.OnRoomEntered name desc exits).2.currentRoomID = m.currentRoomID := by
  have hne : m.currentRoomID ≠ [] := by
    rw [hcur]; exact generateRoomID_ne_nil name desc
  have hself : lookupRoom m.graph.rooms room.id = some room := by rw [hid]; exact hget
  have hAdd := lookupRoom_addRoom_self m.graph room m.clock hself m.currentRoomID
  rw [if_pos hid.symm] at hAdd
  have hdir : toLowerStr m.lastDirection ≠ OppositeDirection (toLowerStr m.lastDirection) :=
    ne_oppositeDirection_self _ hopp
  simp only [Mapper.OnRoomEntered, RoomGraph.GetRoom, ← hcur, hget]
  rw [if_pos ⟨hne, hld⟩]
  simp only [Mapper.linkRooms, hAdd]
  rw [if_pos hopp]
  refine ⟨?_, ?_, rfl, rfl⟩
  · simp [roomExitTarget, lookupRoom_linkStep, hAdd, lookupExit_setExit, hdir]
  · simp [roomExitTarget, lookupRoom_linkStep, hAdd, lookupExit_setExit]

/-- A one-room state used to witness the self-loop theorem. -/
def c10Room : Room :=
  { id := GenerateRoomID (str "Cell") (str "dim"), name := str "Cell",
    description := str "dim", x := 0, y := 0, z := 0, exits := [], imagePath := [],
    visited := 1, visitCount := 1, uncertain := false, notes := [] }

def c10State : Mapper :=
  { graph := { rooms := [(GenerateRoomID (str "Cell") (str "dim"), c10Room)], exits := [] },
    currentRoomID := GenerateRoomID (str "Cell") (str "dim"), previousRoomID := [],
    lastDirection := str "north", clock := 2 }

/-- Witness for C10: a concrete revisit of the current room with pending
movement "north" produces the self-loop in both directions. -/
theorem selfLoop_on_revisit_witness :
    roomExitTarget (c10State.OnRoomEntered (str "Cell") (str "dim") []).2.graph
        c10State.currentRoomID (toLowerStr c10State.lastDirection) =
      some c10State.currentRoomID ∧
    roomExitTarget (c10State.OnRoomEntered (str "Cell") (str "dim") []).2.graph
        c10State.currentRoomID (OppositeDirection (toLowerStr c10State.lastDirection)) =
      some c10State.currentRoomID ∧
    (c10State.OnRoomEntered (str "Cell") (str "dim") []).2.previousRoomID =
      (c10State.OnRoomEntered (str "Cell") (str "dim") []).2.currentRoomID ∧
    (c10State.OnRoomEntered (str "Cell") (str "dim") []).2.currentRoomID =
      c10State.currentRoomID :=
  selfLoop_on_revisit c10State (str "Cell") (str "dim") [] c10Room rfl
    (by simp [c10State, c10Room, lookupRoom]) rfl (by decide) (by decide)

/-! ## C4: placement without a pending movement -/

theorem newRoomCoords_default (m : Mapper)
    (h : m.currentRoomID = [] ∨ m.lastDirection = []) :
    m.newRoomCoords = (0, 0, 0) := by
  unfold Mapper.newRoomCoords
  rw [if_neg]
  rintro ⟨h1, h2⟩
  rcases h with h | h
  · exact h1 h
  · exact h2 h

/-- C4 (amended): a new room resolved with no current room or no pending
movement is always placed at the origin — whether or not the graph is
empty — with `uncertain` left `false`; resolution always returns an id. -/
theorem noMovement_places_at_origin (m : Mapper) (name desc : Str) (exits : List Str)
    (hget : lookupRoom m.graph.rooms (GenerateRoomID name desc) = none)
    (h : m.currentRoomID = [] ∨ m.lastDirection = []) :
    (m.OnRoomEntered name desc exits).1 = GenerateRoomID name desc ∧
    coordsOf (m.OnRoomEntered name desc exits).2 (GenerateRoomID name desc) =
      some (0, 0, 0) ∧
    uncertainOf (m.OnRoomEntered name desc exits).2 (GenerateRoomID name desc) =
      some false := by
  obtain ⟨f, hfprops, hf⟩ := onRoomEntered_new m name desc exits hget
  have hco := newRoomCoords_default m h
  refine ⟨onRoomEntered_fst m name desc exits, ?_, ?_⟩
  · simp only [coordsOf, hf, Option.map_some']
    rw [(hfprops _).2.2.1, (hfprops _).2.2.2.1, (hfprops _).2.2.2.2.1]
    simp [Mapper.freshRoom, hco]
  · simp only [uncertainOf, hf, Option.map_some']
    rw [(hfprops _).2.2.2.2.2]
    simp [Mapper.freshRoom]

/-- Witness for the amended C4 at a concrete input. -/
theorem noMovement_places_at_origin_witness :
    (NewMapper.OnRoomEntered (str "Void") (str "Empty.") []).1 =
      GenerateRoomID (str "Void") (str "Empty.") ∧
    coordsOf (NewMapper.OnRoomEntered (str "Void") (str "Empty.") []).2
        (GenerateRoomID (str "Void") (str "Empty.")) = some (0, 0, 0) ∧
    uncertainOf (NewMapper.OnRoomEntered (str "Void") (str "Empty.") []).2
        (GenerateRoomID (str "Void") (str "Empty.")) = some false :=
  noMovement_places_at_origin NewMapper (str "Void") (str "Empty.") [] rfl (Or.inl rfl)

/-- C4 scenario: three rooms mapped eastwards, then a room resolved with no
pending movement. -/
def c4Scenario : Mapper :=
  Mapper.run
    [.enter (str "A4") (str "a") [], .move (str "east"),
     .enter (str "B4") (str "b") [], .move (str "east"),
     .enter (str "C4r") (str "c") [],
     .enter (str "D4") (str "d") []]

/-- Counterexample for C4 as stated: with a non-empty graph and a current
room at (2,0,0), the next room resolved without pending movement lands at
the origin — not at an offset adjacent to the current room — and its
uncertain flag stays `false`. -/
theorem noMovement_placement_cex :
    coordsOf c4Scenario (GenerateRoomID (str "D4") (str "d")) = some (0, 0, 0) ∧
    uncertainOf c4Scenario (GenerateRoomID (str "D4") (str "d")) = some false ∧
    coordsOf c4Scenario (GenerateRoomID (str "C4r") (str "c")) = some (2, 0, 0) ∧
    c4Scenario.graph.rooms.length = 4 := by decide

/-! ## C1: movement transition into a newly created room -/

/-- C1 scenario: one mapped room, movement "east", then a brand-new room
resolves — a movement-based transition Cell →(east)→ Hall. -/
def c1Scenario : Mapper :=
  Mapper.run
    [.enter (str "Cell") (str "First room.") [str "east"],
     .move (str "east"),
     .enter (str "Hall") (str "Second room.") [str "west"]]

/-- C1 at the failing input: after the movement-based transition into the
newly created room, no link exists in either direction — Cell's "east" exit
and Hall's "west" exit both still read `""` and the flat edge list is empty,
because the new-room branch consults the stale previous-room pointer
(empty here) instead of the room the player moved from. -/
theorem newRoom_transition_unlinked :
    roomExitTarget c1Scenario.graph (GenerateRoomID (str "Cell") (str "First room."))
        (str "east") = some [] ∧
    roomExitTarget c1Scenario.graph (GenerateRoomID (str "Hall") (str "Second room."))
        (str "west") = some [] ∧
    GenerateRoomID (str "Hall") (str "Second room.") ≠ [] ∧
    GenerateRoomID (str "Cell") (str "First room.") ≠ [] ∧
    c1Scenario.graph.exits = [] ∧
    c1Scenario.currentRoomID = GenerateRoomID (str "Hall") (str "Second room.") := by
  decide

/-! ## C2: the Tavern / Market Square scenario -/

/-- C2 scenario: current room "Tavern" at the origin, movement "north",
then "Market Square" resolves. -/
def marketScenario : Mapper :=
  Mapper.run
    [.enter (str "Tavern") (str "A cosy tavern.") [str "north"],
     .move (str "north"),
     .enter (str "Market Square") (str "Busy stalls.") [str "south"]]

/-- C2 at the failing input: Market Square is indeed placed at (0,1,0), but
neither claimed link is created — both exits still read `""`, which is not a
room id — because the new-room branch links from the empty previous-room
pointer rather than from the Tavern. -/
theorem marketSquare_scenario :
    coordsOf marketScenario (GenerateRoomID (str "Market Square") (str "Busy stalls.")) =
      some (0, 1, 0) ∧
    coordsOf marketScenario (GenerateRoomID (str "Tavern") (str "A cosy tavern.")) =
      some (0, 0, 0) ∧
    roomExitTarget marketScenario.graph (GenerateRoomID (str "Tavern") (str "A cosy tavern."))
        (str "north") = some [] ∧
    roomExitTarget marketScenario.graph
        (GenerateRoomID (str "Market Square") (str "Busy stalls.")) (str "south") = some [] ∧
    GenerateRoomID (str "Market Square") (str "Busy stalls.") ≠ [] ∧
    GenerateRoomID (str "Tavern") (str "A cosy tavern.") ≠ [] ∧
    marketScenario.graph.exits = [] := by
  decide

/-! ## C3: coordinate collision handling -/

/-- C3 scenario: rooms at (0,0,0) and (1,0,0); moving west from (1,0,0)
resolves a new room whose candidate (0,0,0) is occupied, so it is nudged to
(1,0,0) — which is itself occupied. -/
def c3Scenario : Mapper :=
  Mapper.run
    [.enter (str "A3") (str "a") [], .move (str "east"),
     .enter (str "D3") (str "dz") [], .move (str "west"),
     .enter (str "E3") (str "ez") []]

/-- C3 at the failing input: after the collision the new room E3 is nudged
onto (1,0,0), the coordinates already held by D3 — two records now share
(x,y,z) on first placement — and E3's uncertain flag stays `false`; the
occupant D3 itself is unchanged. -/
theorem collision_not_flagged :
    coordsOf c3Scenario (GenerateRoomID (str "D3") (str "dz")) = some (1, 0, 0) ∧
    coordsOf c3Scenario (GenerateRoomID (str "E3") (str "ez")) = some (1, 0, 0) ∧
    uncertainOf c3Scenario (GenerateRoomID (str "E3") (str "ez")) = some false ∧
    GenerateRoomID (str "D3") (str "dz") ≠ GenerateRoomID (str "E3") (str "ez") := by
  decide

/-! ## C9: load-time error handling -/

/-- C9: a missing snapshot is success with the state untouched; an
undecodable snapshot returns an error with the state untouched; a decoded
document is installed even when its version mismatches. -/
theorem loadMap_error_handling (m : Mapper) :
    m.LoadMap SnapshotFile.missing = (m, none) ∧
    (m.LoadMap SnapshotFile.malformed).1 = m ∧
    (m.LoadMap SnapshotFile.malformed).2.isSome = true ∧
    (∀ d : MapData, d.version ≠ MapVersion →
      (m.LoadMap (SnapshotFile.parsed d)).2 = none ∧
      (m.LoadMap (SnapshotFile.parsed d)).1.graph = d.graph ∧
      (m.LoadMap (SnapshotFile.parsed d)).1.currentRoomID = d.currentRoomID) := by
  refine ⟨rfl, rfl, rfl, ?_⟩
  intro d _
  exact ⟨rfl, rfl, rfl⟩

/-- A snapshot document with a mismatched version, used as the witness. -/
def c9Doc : MapData :=
  { version := str "0.9", serverName := str "srv",
    graph := { rooms := [], exits := [] }, currentRoomID := str "abc" }

/-- Witness for C9: a version-0.9 document still loads without error. -/
theorem loadMap_error_handling_witness :
    (NewMapper.LoadMap (SnapshotFile.parsed c9Doc)).2 = none ∧
    (NewMapper.LoadMap (SnapshotFile.parsed c9Doc)).1.graph = c9Doc.graph ∧
    (NewMapper.LoadMap (SnapshotFile.parsed c9Doc)).1.currentRoomID =
      c9Doc.currentRoomID :=
  (loadMap_error_handling NewMapper).2.2.2 c9Doc (by decide)

/-! ## C7: classification of exit lines -/

theorem stripPrefixStr_cons {p : Char} {ps s r : Str}
    (h : stripPrefixStr (p :: ps) s = some r) : ∃ cs, s = p :: cs := by
  cases s with
  | nil => simp [stripPrefixStr] at h
  | cons c cs =>
    by_cases hc : p = c
    · exact ⟨cs, by rw [hc]⟩
    · simp [stripPrefixStr, hc] at h

theorem goTrimSpace_ne_nil_of_head (c : Char) (s : Str) (hc : goIsSpace c = false) :
    goTrimSpace (c :: s) ≠ [] := by
  unfold goTrimSpace
  intro h
  rw [List.reverse_eq_nil_iff, List.dropWhile_eq_nil_iff] at h
  have hdw : (c :: s).dropWhile goIsSpace = c :: s := by
    rw [List.dropWhile_cons]
    simp [hc]
  have hmem : c ∈ ((c :: s).dropWhile goIsSpace).reverse := by
    rw [hdw, List.mem_reverse]
    exact List.mem_cons_self _ _
  have := h c hmem
  rw [hc] at this
  exact Bool.false_ne_true this

theorem promptMatch_cons_false (c : Char) (s : Str)
    (h1 : (c == '[') = false) (h2 : (c == '<') = false) :
    promptMatch (c :: s) = false := by
  simp [promptMatch, h1, h2]

theorem parseExits_fold (l : List Str) :
    ∀ acc : List Str,
      l.foldl (fun acc e => let e2 := goTrimSpace e; if e2 ≠ [] then acc ++ [e2] else acc)
          acc =
        acc ++ (l.map goTrimSpace).filter (fun t => !t.isEmpty) := by
  induction l with
  | nil => intro acc; simp
  | cons e rest ih =>
    intro acc
    simp only [List.foldl_cons, List.map_cons, List.filter_cons]
    by_cases he : goTrimSpace e = []
    · simp only [he]
      rw [ih]
      simp
    · have hne : (!(goTrimSpace e).isEmpty) = true := by
        simp [List.isEmpty_iff, he]
      rw [if_pos he, ih, if_pos hne]
      simp

/-- `parseExits` computes exactly: split on commas, trim each token, drop
the empties, in order. -/
theorem parseExits_eq (g : Str) :
    parseExits g = ((splitOnComma g).map goTrimSpace).filter (fun t => !t.isEmpty) := by
  unfold parseExits
  rw [parseExits_fold]
  simp

/-- C7: every line whose cleaned text matches the exits marker is classified
as an exit list whose tokens are the comma-separated segments of the
captured remainder, trimmed, with empties dropped, in original order. -/
theorem parseLine_exits (line g : Str)
    (h : exitsSubmatch (stripColorCodes line) = some g) :
    (ParseLine line).type = OutputType.exits ∧
    (ParseLine line).exits =
      ((splitOnComma g).map goTrimSpace).filter (fun t => !t.isEmpty) := by
  have hshape : ∃ t, stripColorCodes line = 'E' :: t := by
    unfold exitsSubmatch at h
    cases hs : stripPrefixStr (str "Exits:") (stripColorCodes line) with
    | some r =>
      exact @stripPrefixStr_cons 'E' (str "xits:") _ _ hs
    | none =>
      rw [hs] at h
      cases hs2 : stripPrefixStr (str "Exit:") (stripColorCodes line) with
      | some r => exact @stripPrefixStr_cons 'E' (str "xit:") _ _ hs2
      | none => rw [hs2] at h; exact absurd h (by simp)
  obtain ⟨t, ht⟩ := hshape
  have hempty : ¬(goTrimSpace (stripColorCodes line) = []) := by
    rw [ht]
    exact goTrimSpace_ne_nil_of_head 'E' t (by decide)
  have hprompt : promptMatch (stripColorCodes line) = false := by
    rw [ht]
    exact promptMatch_cons_false 'E' t (by decide) (by decide)
  refine ⟨?_, ?_⟩
  · simp only [ParseLine, hempty, hprompt, h, Bool.false_eq_true, if_false]
  · simp only [ParseLine, hempty, hprompt, h, Bool.false_eq_true, if_false]
    exact parseExits_eq g

/-- Witness for C7: classifying `"Exits: north, east"` yields the exit list
`["north", "east"]`. -/
theorem parseLine_exits_witness :
    (ParseLine (str "Exits: north, east")).type = OutputType.exits ∧
    (ParseLine (str "Exits: north, east")).exits = [str "north", str "east"] := by
  obtain ⟨h1, h2⟩ :=
    parseLine_exits (str "Exits: north, east") (str "north, east") (by decide)
  exact ⟨h1, h2.trans (by decide)⟩

/-! ## C8: consistency of the two exit views -/

def flatKey (e : Exit) : Str × Str := (e.fromId, e.direction)

theorem mem_addExitList_self (l : List Exit) (f d t : Str) :
    (⟨f, d, t⟩ : Exit) ∈ addExitList l f d t := by
  induction l with
  | nil => simp [addExitList]
  | cons e rest ih =>
    by_cases hk : e.fromId = f ∧ e.direction = d
    · rw [addExitList, if_pos hk]
      have : ({ e with toId := t } : Exit) = ⟨f, d, t⟩ := by
        cases e
        simp only [Exit.mk.injEq]
        exact ⟨hk.1, hk.2, trivial⟩
      rw [this]
      exact List.mem_cons_self _ _
    · rw [addExitList, if_neg hk]
      exact List.mem_cons_of_mem _ ih

theorem mem_addExitList_of_mem {l : List Exit} {e' : Exit} (f d t : Str)
    (h : e' ∈ l) (hk : ¬(e'.fromId = f ∧ e'.direction = d)) :
    e' ∈ addExitList l f d t := by
  induction l with
  | nil => simp at h
  | cons e rest ih =>
    by_cases hek : e.fromId = f ∧ e.direction = d
    · rw [addExitList, if_pos hek]
      rcases List.mem_cons.mp h with rfl | hmem
      · exact absurd hek hk
      · exact List.mem_cons_of_mem _ hmem
    · rw [addExitList, if_neg hek]
      rcases List.mem_cons.mp h with rfl | hmem
      · exact List.mem_cons_self _ _
      · exact List.mem_cons_of_mem _ (ih hmem)

theorem addExitList_cases {l : List Exit} {f d t : Str} {e' : Exit}
    (hnodup : (l.map flatKey).Nodup) (h : e' ∈ addExitList l f d t) :
    e' = ⟨f, d, t⟩ ∨ (e' ∈ l ∧ ¬(e'.fromId = f ∧ e'.direction = d)) := by
  induction l with
  | nil =>
    simp [addExitList] at h
    exact Or.inl h
  | cons e rest ih =>
    rw [List.map_cons, List.nodup_cons] at hnodup
    by_cases hk : e.fromId = f ∧ e.direction = d
    · rw [addExitList, if_pos hk] at h
      rcases List.mem_cons.mp h with rfl | hmem
      · left
        cases e
        simp only [Exit.mk.injEq]
        exact ⟨hk.1, hk.2, trivial⟩
      · right
        refine ⟨List.mem_cons_of_mem _ hmem, ?_⟩
        rintro ⟨h1, h2⟩
        have hkey : flatKey e' ∈ rest.map flatKey := List.mem_map_of_mem flatKey hmem
        have he'k : flatKey e' = (f, d) := by simp [flatKey, h1, h2]
        have hek : flatKey e = (f, d) := by simp [flatKey, hk.1, hk.2]
        rw [he'k, ← hek] at hkey
        exact hnodup.1 hkey
    · rw [addExitList, if_neg hk] at h
      rcases List.mem_cons.mp h with rfl | hmem
      · exact Or.inr ⟨List.mem_cons_self _ _, hk⟩
      · rcases ih hnodup.2 hmem with h1 | ⟨h2a, h2b⟩
        · exact Or.inl h1
        · exact Or.inr ⟨List.mem_cons_of_mem _ h2a, h2b⟩

theorem addExitList_keys_nodup {l : List Exit} (f d t : Str)
    (h : (l.map flatKey).Nodup) : ((addExitList l f d t).map flatKey).Nodup := by
  induction l with
  | nil => simp [addExitList, flatKey]
  | cons e rest ih =>
    rw [List.map_cons, List.nodup_cons] at h
    by_cases hk : e.fromId = f ∧ e.direction = d
    · rw [addExitList, if_pos hk, List.map_cons, List.nodup_cons]
      refine ⟨?_, h.2⟩
      have : flatKey { e with toId := t } = flatKey e := by simp [flatKey]
      rw [this]
      exact h.1
    · rw [addExitList, if_neg hk, List.map_cons, List.nodup_cons]
      refine ⟨?_, ih h.2⟩
      intro hmem
      obtain ⟨e', he', hkey⟩ := List.mem_map.mp hmem
      rcases addExitList_cases h.2 he' with rfl | ⟨hmem2, _⟩
      · apply hk
        have h1 : e.fromId = f := by
          have := congrArg Prod.fst hkey
          simpa [flatKey] using this.symm
        have h2 : e.direction = d := by
          have := congrArg Prod.snd hkey
          simpa [flatKey] using this.symm
        exact ⟨h1, h2⟩
      · exact h.1 (hkey ▸ List.mem_map_of_mem flatKey hmem2)

/-- The reachable-graph invariant tying the two exit views together. -/
structure GraphInv (g : RoomGraph) : Prop where
  keyId : ∀ p ∈ g.rooms, p.2.id = p.1
  flatKeys : (g.exits.map flatKey).Nodup
  flatNe : ∀ e ∈ g.exits, e.toId ≠ []
  flatToMap : ∀ e ∈ g.exits, roomExitTarget g e.fromId e.direction = some e.toId
  mapToFlat : ∀ id d t, roomExitTarget g id d = some t → t ≠ [] →
      ∃ e ∈ g.exits, e.fromId = id ∧ e.direction = d ∧ e.toId = t

theorem graphInv_linkStep (g : RoomGraph) (fid dir tid : Str)
    (inv : GraphInv g) (fr : Room) (hfid : lookupRoom g.rooms fid = some fr)
    (htid : tid ≠ []) : GraphInv (g.linkStep fid dir tid) := by
  have hlook : ∀ id', lookupRoom (g.linkStep fid dir tid).rooms id' =
      (lookupRoom g.rooms id').map
        (fun r => if id' = fid then { r with exits := setExit r.exits dir tid } else r) :=
    fun id' => lookupRoom_linkStep g fid dir tid id'
  refine ⟨?_, ?_, ?_, ?_, ?_⟩
  · -- keyId
    intro p hp
    obtain ⟨q, hq, rfl⟩ := List.mem_map.mp hp
    have := inv.keyId q hq
    split_ifs <;> simpa using this
  · exact addExitList_keys_nodup fid dir tid inv.flatKeys
  · -- flatNe
    intro e he
    rcases addExitList_cases inv.flatKeys he with rfl | ⟨hmem, _⟩
    · exact htid
    · exact inv.flatNe e hmem
  · -- flatToMap
    intro e he
    rcases addExitList_cases inv.flatKeys he with rfl | ⟨hmem, hkey⟩
    · show roomExitTarget _ fid dir = some tid
      rw [roomExitTarget, hlook fid, hfid, Option.map_some', if_pos rfl]
      simp [lookupExit_setExit]
    · have hold := inv.flatToMap e hmem
      rw [roomExitTarget] at hold ⊢
      rw [hlook e.fromId]
      cases hg : lookupRoom g.rooms e.fromId with
      | none => rw [hg] at hold; simp at hold
      | some r0 =>
        rw [hg] at hold
        simp only [Option.some_bind] at hold
        simp only [Option.map_some', Option.some_bind]
        by_cases hfrom : e.fromId = fid
        · rw [if_pos hfrom]
          have hdir : ¬(e.direction = dir) := by
            intro hd
            exact hkey ⟨hfrom, hd⟩
          rw [lookupExit_setExit, if_neg hdir]
          exact hold
        · rw [if_neg hfrom]
          exact hold
  · -- mapToFlat
    intro id' d' t' hmap ht'
    rw [roomExitTarget, hlook id'] at hmap
    cases hg : lookupRoom g.rooms id' with
    | none => rw [hg] at hmap; simp at hmap
    | some r0 =>
      rw [hg] at hmap
      simp only [Option.map_some', Option.some_bind] at hmap
      by_cases hfrom : id' = fid
      · rw [if_pos hfrom] at hmap
        rw [lookupExit_setExit] at hmap
        by_cases hd : d' = dir
        · rw [if_pos hd] at hmap
          have ht2 : tid = t' := Option.some.inj hmap
          exact ⟨⟨fid, dir, tid⟩, mem_addExitList_self _ _ _ _, hfrom.symm, hd.symm, ht2⟩
        · rw [if_neg hd] at hmap
          have hold : roomExitTarget g id' d' = some t' := by
            rw [roomExitTarget, hg, Option.some_bind]
            exact hmap
          obtain ⟨e, he, h1, h2, h3⟩ := inv.mapToFlat id' d' t' hold ht'
          refine ⟨e, mem_addExitList_of_mem fid dir tid he ?_, h1, h2, h3⟩
          rintro ⟨-, hd2⟩
          exact hd (by rw [← h2, hd2])
      · rw [if_neg hfrom] at hmap
        have hold : roomExitTarget g id' d' = some t' := by
          rw [roomExitTarget, hg, Option.some_bind]
          exact hmap
        obtain ⟨e, he, h1, h2, h3⟩ := inv.mapToFlat id' d' t' hold ht'
        refine ⟨e, mem_addExitList_of_mem fid dir tid he ?_, h1, h2, h3⟩
        rintro ⟨hf2, -⟩
        exact hfrom (by rw [← h1, hf2])

theorem roomExitTarget_addRoom_self (g : RoomGraph) (r : Room) (now : Nat)
    (h : lookupRoom g.rooms r.id = some r) (x y : Str) :
    roomExitTarget (g.AddRoom r now) x y = roomExitTarget g x y := by
  rw [roomExitTarget, roomExitTarget, lookupRoom_addRoom_self g r now h x]
  by_cases hx : x = r.id
  · rw [if_pos hx, hx, h]
    rfl
  · rw [if_neg hx]

theorem addRoom_self_exits (g : RoomGraph) (r : Room) (now : Nat)
    (h : lookupRoom g.rooms r.id = some r) : (g.AddRoom r now).exits = g.exits := by
  unfold RoomGraph.AddRoom
  simp only [h]

theorem graphInv_addRoom_self (g : RoomGraph) (r : Room) (now : Nat)
    (inv : GraphInv g) (h : lookupRoom g.rooms r.id = some r) :
    GraphInv (g.AddRoom r now) := by
  have hexits := addRoom_self_exits g r now h
  refine ⟨?_, ?_, ?_, ?_, ?_⟩
  · intro p hp
    unfold RoomGraph.AddRoom at hp
    simp only [h] at hp
    obtain ⟨q, hq, rfl⟩ := List.mem_map.mp hp
    have hqid := inv.keyId q hq
    by_cases hk : q.1 = r.id
    · simp only [updateRoom, if_pos hk]
      split_ifs <;> simpa using hqid
    · simp only [updateRoom, if_neg hk]
      exact hqid
  · rw [hexits]
    exact inv.flatKeys
  · intro e he
    rw [hexits] at he
    exact inv.flatNe e he
  · intro e he
    rw [hexits] at he
    rw [roomExitTarget_addRoom_self g r now h]
    exact inv.flatToMap e he
  · intro id' d' t' hm ht
    rw [roomExitTarget_addRoom_self g r now h] at hm
    obtain ⟨e, he, h1, h2, h3⟩ := inv.mapToFlat id' d' t' hm ht
    exact ⟨e, by rw [hexits]; exact he, h1, h2, h3⟩

theorem addRoom_new_exits (g : RoomGraph) (room : Room) (now : Nat)
    (h : lookupRoom g.rooms room.id = none) : (g.AddRoom room now).exits = g.exits := by
  unfold RoomGraph.AddRoom
  simp only [h]

theorem graphInv_addRoom_new (g : RoomGraph) (room : Room) (now : Nat)
    (inv : GraphInv g) (h : lookupRoom g.rooms room.id = none)
    (hall : ∀ d t, lookupExit room.exits d = some t → t = []) :
    GraphInv (g.AddRoom room now) := by
  have hexits := addRoom_new_exits g room now h
  have hlook := lookupRoom_addRoom_new g room now h
  refine ⟨?_, ?_, ?_, ?_, ?_⟩
  · intro p hp
    unfold RoomGraph.AddRoom at hp
    simp only [h] at hp
    rcases List.mem_append.mp hp with hmem | hmem
    · exact inv.keyId p hmem
    · have : p = (room.id, { room with visited := now, visitCount := 1 }) := by
        simpa using hmem
      rw [this]
  · rw [hexits]
    exact inv.flatKeys
  · intro e he
    rw [hexits] at he
    exact inv.flatNe e he
  · intro e he
    rw [hexits] at he
    have hold := inv.flatToMap e he
    rw [roomExitTarget] at hold ⊢
    rw [hlook e.fromId]
    by_cases hx : e.fromId = room.id
    · rw [hx] at hold
      rw [h] at hold
      simp at hold
    · rw [if_neg hx]
      exact hold
  · intro id' d' t' hm ht
    rw [roomExitTarget, hlook id'] at hm
    by_cases hx : id' = room.id
    · rw [if_pos hx] at hm
      simp only [Option.some_bind] at hm
      exact absurd (hall d' t' hm) ht
    · rw [if_neg hx] at hm
      obtain ⟨e, he, h1, h2, h3⟩ := inv.mapToFlat id' d' t' hm ht
      exact ⟨e, by rw [hexits]; exact he, h1, h2, h3⟩

theorem graphInv_linkRooms (m : Mapper) (a b c : Str) (inv : GraphInv m.graph)
    (hc : c ≠ []) (ha : a ≠ []) : GraphInv (m.linkRooms a b c).graph := by
  unfold Mapper.linkRooms
  cases h1 : lookupRoom m.graph.rooms a with
  | none =>
    cases h2 : lookupRoom m.graph.rooms c <;>
      · simp only [h1, h2]
        exact inv
  | some fr =>
    cases h2 : lookupRoom m.graph.rooms c with
    | none =>
      simp only [h1, h2]
      exact inv
    | some tr =>
      simp only [h1, h2]
      have inv1 := graphInv_linkStep m.graph a (toLowerStr b) c inv fr h1 hc
      by_cases h3 : OppositeDirection (toLowerStr b) ≠ []
      · rw [if_pos h3]
        refine graphInv_linkStep _ c (OppositeDirection (toLowerStr b)) a inv1 ?_ ?_ ha
        · exact (fun r => if c = a then { r with exits := setExit r.exits (toLowerStr b) c }
                 else r) tr
        · rw [lookupRoom_linkStep, h2]
          rfl
      · rw [if_neg h3]
        exact inv1

theorem graphInv_onRoomEntered (m : Mapper) (n d : Str) (e : List Str)
    (inv : GraphInv m.graph) : GraphInv (m.OnRoomEntered n d e).2.graph := by
  cases hget : lookupRoom m.graph.rooms (GenerateRoomID n d) with
  | some r =>
    have hid : r.id = GenerateRoomID n d := inv.keyId _ (lookupRoom_mem hget)
    have hself : lookupRoom m.graph.rooms r.id = some r := by rw [hid]; exact hget
    have inv1 := graphInv_addRoom_self m.graph r m.clock inv hself
    simp only [Mapper.OnRoomEntered, RoomGraph.GetRoom, hget]
    by_cases hcnd : m.currentRoomID ≠ [] ∧ m.lastDirection ≠ []
    · rw [if_pos hcnd]
      exact graphInv_linkRooms
        { m with previousRoomID := m.currentRoomID, currentRoomID := GenerateRoomID n d,
                 graph := m.graph.AddRoom r m.clock, clock := m.clock + 1 }
        m.currentRoomID m.lastDirection (GenerateRoomID n d) inv1
        (generateRoomID_ne_nil n d) hcnd.1
    · rw [if_neg hcnd]
      exact inv1
  | none =>
    have inv1 := graphInv_addRoom_new m.graph (m.freshRoom n d e) m.clock inv
      (by rw [freshRoom_id]; exact hget)
      (fun d' t' h' => lookupExit_buildExits e d' t' h')
    simp only [Mapper.OnRoomEntered, RoomGraph.GetRoom, hget]
    by_cases hcnd : m.previousRoomID ≠ [] ∧ m.lastDirection ≠ []
    · rw [if_pos hcnd]
      exact graphInv_linkRooms
        { m with graph := m.graph.AddRoom (m.freshRoom n d e) m.clock,
                 clock := m.clock + 1 }
        m.previousRoomID m.lastDirection (GenerateRoomID n d) inv1
        (generateRoomID_ne_nil n d) hcnd.1
    · rw [if_neg hcnd]
      exact inv1

theorem graphInv_applyOp (m : Mapper) (op : MapOp) (inv : GraphInv m.graph) :
    GraphInv (m.applyOp op).graph := by
  cases op with
  | move dd => exact inv
  | enter nn dd ee => exact graphInv_onRoomEntered m nn dd ee inv

theorem graphInv_foldl (ops : List MapOp) :
    ∀ m : Mapper, GraphInv m.graph → GraphInv (ops.foldl Mapper.applyOp m).graph := by
  induction ops with
  | nil => intro m inv; exact inv
  | cons op rest ih =>
    intro m inv
    exact ih _ (graphInv_applyOp m op inv)

/-- Every graph reachable by driving the mapper from its initial state
satisfies the invariant. -/
theorem graphInv_run (ops : List MapOp) : GraphInv (Mapper.run ops).graph := by
  apply graphInv_foldl
  refine ⟨?_, ?_, ?_, ?_, ?_⟩ <;>
    simp [NewMapper, roomExitTarget, lookupRoom]

/-- C8 (amended): after every sequence of movements and room resolutions
from a fresh mapper, a room's exit map records a non-empty target T under
direction D exactly when the flat edge list holds the entry (room id, D, T);
the flat list never records an unexplored (empty) target, so unexplored
exits live only in the per-room maps. -/
theorem views_agree_nonempty (ops : List MapOp) (id d t : Str) (ht : t ≠ []) :
    (roomExitTarget (Mapper.run ops).graph id d = some t ↔
      ∃ e ∈ (Mapper.run ops).graph.exits,
        e.fromId = id ∧ e.direction = d ∧ e.toId = t) ∧
    (∀ e ∈ (Mapper.run ops).graph.exits, e.toId ≠ []) := by
  have inv := graphInv_run ops
  refine ⟨⟨fun h => inv.mapToFlat id d t h ht, ?_⟩, inv.flatNe⟩
  rintro ⟨e, he, h1, h2, h3⟩
  have := inv.flatToMap e he
  rw [h1, h2, h3] at this
  exact this

/-- Witness for the amended C8: a run that revisits a mapped room and so
creates a genuine link. -/
theorem views_agree_nonempty_witness :
    GenerateRoomID (str "A8") (str "a") ≠ [] ∧
    ((roomExitTarget (Mapper.run
        [MapOp.enter (str "A8") (str "a") [], MapOp.move (str "east"),
         MapOp.enter (str "B8") (str "b") [], MapOp.move (str "west"),
         MapOp.enter (str "A8") (str "a") []]).graph
        (GenerateRoomID (str "B8") (str "b")) (str "west") =
          some (GenerateRoomID (str "A8") (str "a")) ↔
      ∃ e ∈ (Mapper.run
        [MapOp.enter (str "A8") (str "a") [], MapOp.move (str "east"),
         MapOp.enter (str "B8") (str "b") [], MapOp.move (str "west"),
         MapOp.enter (str "A8") (str "a") []]).graph.exits,
        e.fromId = GenerateRoomID (str "B8") (str "b") ∧ e.direction = str "west" ∧
        e.toId = GenerateRoomID (str "A8") (str "a")) ∧
    (∀ e ∈ (Mapper.run
        [MapOp.enter (str "A8") (str "a") [], MapOp.move (str "east"),
         MapOp.enter (str "B8") (str "b") [], MapOp.move (str "west"),
         MapOp.enter (str "A8") (str "a") []]).graph.exits, e.toId ≠ [])) :=
  ⟨generateRoomID_ne_nil (str "A8") (str "a"),
   views_agree_nonempty _ _ _ _ (generateRoomID_ne_nil (str "A8") (str "a"))⟩

/-- The consistency property exactly as claimed: after every operation
sequence, a room's exit map records target T under D — explored or not —
exactly when the flat edge list holds the matching entry. -/
def ExitViewsAlwaysAgree : Prop :=
  ∀ (ops : List MapOp) (id d t : Str),
    roomExitTarget (Mapper.run ops).graph id d = some t ↔
      ∃ e ∈ (Mapper.run ops).graph.exits,
        e.fromId = id ∧ e.direction = d ∧ e.toId = t

/-- Counterexample for C8 as stated: after a single room resolution with
exit list ["south"], the room's exit map holds "south" with target `""`
while the flat edge list is empty, so the two views disagree. -/
theorem views_disagree_cex : ¬ExitViewsAlwaysAgree := by
  intro hclaim
  have hmap : roomExitTarget
      (Mapper.run [MapOp.enter (str "A8c") (str "a") [str "south"]]).graph
      (GenerateRoomID (str "A8c") (str "a")) (str "south") = some [] := by decide
  obtain ⟨e, he, -⟩ :=
    (hclaim [MapOp.enter (str "A8c") (str "a") [str "south"]]
      (GenerateRoomID (str "A8c") (str "a")) (str "south") []).mp hmap
  have hexits : (Mapper.run
      [MapOp.enter (str "A8c") (str "a") [str "south"]]).graph.exits = [] := by decide
  rw [hexits] at he
  exact absurd he (List.not_mem_nil e)

end SeeMUD
